import Mathlib

/-!
Verification of the Attendance-System backend (src/backend/services.py).

The development shallowly embeds the pure decision logic of the backend:

* `log_attendance_update_only` — the per-(employee, day) attendance state
  machine of `PooledDatabaseService.log_attendance_update_only`
  (services.py lines 697-807).  The database row for one employee and one
  calendar day is an `Option AttendanceRecord`; times of day are natural
  numbers (seconds since midnight IST, order-isomorphic to the
  `HH:MM:SS` strings the code stores).
* `recognize_from_neighbors` / `recognize_face` — the multi-angle matcher
  of `FaceRecognitionServiceFAISS.recognize_face` (lines 1425-1495),
  taking the FAISS `index.search` output (a ranked list of
  (row-index, cosine-similarity) pairs) as input.  Similarities are
  rationals.
* `load_face_map` — the index construction of
  `FaceRecognitionServiceFAISS.load_face_map` (lines 1319-1367).
* `processed_count` — the frame-skip logic of
  `CameraService.process_camera` (lines 1564-1600).
* `broadcast` — the fan-out of `WebSocketManager.broadcast`
  (lines 90-117), with Python asyncio semantics made explicit: calling
  the async method `connection.send_json(message)` only creates a
  coroutine, so the surrounding `try/except` never observes a delivery
  failure; failures surface inside
  `asyncio.gather(..., return_exceptions=True)`, which captures them
  instead of propagating.
-/

namespace AttendanceSystem

/-! ## Data model -/

/-- One row of `attendance_logs` for a fixed (emp_id, date) key.
Times are seconds since midnight (IST) — the code stores `HH:MM:SS`
strings, whose lexicographic order coincides with numeric order. -/
structure AttendanceRecord where
  first_in : Option Nat
  in_camera_id : Option String
  in_confidence : Option ℚ
  last_out : Option Nat
  out_camera_id : Option String
  out_confidence : Option ℚ
deriving Repr, DecidableEq

/-- One call's arguments: event type string (the code compares against
the literals "IN" and "OUT"), camera id, confidence, and time of day. -/
structure AttendanceEvent where
  event_type : String
  camera_id : String
  confidence : ℚ
  time_only : Nat
deriving Repr, DecidableEq

/-- The dict returned by `log_attendance_update_only`: `success`,
`message`, and (on the IN/OUT paths) an `action` key. -/
structure LedgerResult where
  success : Bool
  message : String
  action : Option String
deriving Repr, DecidableEq

/-! ## Attendance ledger (PooledDatabaseService.log_attendance_update_only) -/

/-- Embedding of `PooledDatabaseService.log_attendance_update_only`
(services.py lines 697-807), restricted to the row of the event's
(employee, IST calendar day) key, which is the only row it reads or
writes.  `existing` is that row (`None` when absent). -/
def log_attendance_update_only (existing : Option AttendanceRecord)
    (ev : AttendanceEvent) : Option AttendanceRecord × LedgerResult :=
  if ev.event_type = "IN" then
    match existing with
    | some r => (some r, ⟨true, "IN already logged", some "skipped"⟩)
    | none =>
        (some ⟨some ev.time_only, some ev.camera_id, some ev.confidence,
               none, none, none⟩,
         ⟨true, "IN logged", some "inserted"⟩)
  else if ev.event_type = "OUT" then
    match existing with
    | some r =>
        if r.first_in.isSome then
          (some { r with last_out := some ev.time_only,
                         out_camera_id := some ev.camera_id,
                         out_confidence := some ev.confidence },
           ⟨true, "OUT updated", some "updated"⟩)
        else
          (some { r with first_in := some ev.time_only,
                         in_camera_id := some ev.camera_id,
                         in_confidence := some ev.confidence },
           ⟨true, "IN logged (EXIT camera used)", some "updated"⟩)
    | none =>
        (some ⟨some ev.time_only, some ev.camera_id, some ev.confidence,
               none, none, none⟩,
         ⟨true, "IN logged (EXIT camera used)", some "inserted"⟩)
  else (existing, ⟨false, "Invalid event type", none⟩)

/-- A sequence of ledger calls against the same (employee, day) row. -/
def runLedger : Option AttendanceRecord → List AttendanceEvent →
    Option AttendanceRecord × List LedgerResult
  | st, [] => (st, [])
  | st, ev :: evs =>
      let step := log_attendance_update_only st ev
      let rest := runLedger step.1 evs
      (rest.1, step.2 :: rest.2)

/-- Invariant carried through a run: any field already set in the row
is no later than every still-unprocessed event's time; last-OUT is only
ever set when first-IN is; and first-IN ≤ last-OUT when both are set. -/
def LedgerInv (st : Option AttendanceRecord)
    (future : List AttendanceEvent) : Prop :=
  ∀ r, st = some r →
    (∀ a, r.first_in = some a → ∀ e ∈ future, a ≤ e.time_only) ∧
    (∀ b, r.last_out = some b → ∀ e ∈ future, b ≤ e.time_only) ∧
    (r.last_out.isSome = true → r.first_in.isSome = true) ∧
    (∀ a b, r.first_in = some a → r.last_out = some b → a ≤ b)

/-! ## Multi-angle matcher (FaceRecognitionServiceFAISS.recognize_face) -/

/-- `self.recognition_threshold = 0.40` (services.py line 1255). -/
def recognition_threshold : ℚ := 40/100

/-- `sorted(sims, reverse=True)` (line 1464): descending sort. -/
def sortDesc (sims : List ℚ) : List ℚ :=
  sims.insertionSort (fun a b => b ≤ a)

/-- The per-identity confidence computed from the descending-sorted
similarity list (lines 1466-1478): with at least two matched angles,
gap ≤ 0.08 averages the best two, a larger gap penalizes the top with
factor 0.6; a single angle is used as-is (the `else` arm also guards
an empty list with 0). -/
def confFromSorted : List ℚ → ℚ
  | top_sim :: second_sim :: _ =>
      if top_sim - second_sim ≤ 8/100 then (top_sim + second_sim) / 2
      else top_sim * (6/10)
  | [top_sim] => top_sim
  | [] => 0

/-- Confidence of one identity's matched similarities (lines 1462-1478). -/
def confidence_of (sims : List ℚ) : ℚ := confFromSorted (sortDesc sims)

/-- `emp_scores[emp_id].append(sim)` on a `defaultdict(list)`
(lines 1454-1457): first occurrence of an id appends a new group at the
end, later similarities append to that group, preserving order. -/
def addSim (eid : String) (sim : ℚ) :
    List (String × List ℚ) → List (String × List ℚ)
  | [] => [(eid, [sim])]
  | g :: rest =>
      if g.1 = eid then (g.1, g.2 ++ [sim]) :: rest
      else g :: addSim eid sim rest

/-- Grouping of the FAISS search output by employee (lines 1453-1457):
each result row index is mapped through `emp_id_map`. -/
def group_by_employee (emp_id_map : List String)
    (results : List (Nat × ℚ)) : List (String × List ℚ) :=
  results.foldl (fun gs p => addSim (emp_id_map.getD p.1 "") p.2 gs) []

/-- One step of the best-match fold (lines 1480-1482):
`if confidence > best_confidence: update`. -/
def pickStep (best : Option String × ℚ) (g : String × List ℚ) :
    Option String × ℚ :=
  if confidence_of g.2 > best.2 then (some g.1, confidence_of g.2) else best

/-- `best_match = None; best_confidence = 0.0` then the loop over
grouped employees (lines 1459-1482). -/
def pickBest (groups : List (String × List ℚ)) : Option String × ℚ :=
  groups.foldl pickStep (none, 0)

/-- The matcher core on the grouped neighbor list (lines 1453-1491):
group, score, pick the best, then threshold
(`if best_confidence >= self.recognition_threshold`). -/
def recognize_from_neighbors (emp_id_map : List String)
    (results : List (Nat × ℚ)) (threshold : ℚ) : Option String × ℚ :=
  let best := pickBest (group_by_employee emp_id_map results)
  if best.2 ≥ threshold then (best.1, best.2) else (none, best.2)

/-- State built by `FaceRecognitionServiceFAISS.load_face_map`:
the flat embedding cache, the parallel `emp_id_map`, and whether
`self.faiss_index` is set (`has_index = false` models
`self.faiss_index = None`, line 1362). -/
structure FaissService where
  face_map : List (String × List (List ℚ))
  embeddings_cache : List (List ℚ)
  emp_id_map : List String
  has_index : Bool
  recognition_threshold : ℚ
deriving Repr, DecidableEq

/-- Embedding of `load_face_map` (lines 1319-1367): flatten the
per-employee embedding lists in order; the FAISS index is only created
when the cache is nonempty, otherwise it is the explicit empty state
(`self.faiss_index = None`). -/
def load_face_map (face_map : List (String × List (List ℚ))) : FaissService :=
  let cache := face_map.flatMap (fun p => p.2)
  { face_map := face_map
    embeddings_cache := cache
    emp_id_map := face_map.flatMap (fun p => p.2.map (fun _ => p.1))
    has_index := !cache.isEmpty
    recognition_threshold := 40/100 }

/-- Embedding of `recognize_face` (lines 1425-1495).  `search_results`
stands for the output of the external `self.faiss_index.search` call:
the ranked (row-index, cosine-similarity) pairs of the K nearest
neighbors.  When the index is absent or the id map empty the code
returns `(None, 0.0)` before searching (lines 1434-1436). -/
def recognize_face (svc : FaissService)
    (search_results : List (Nat × ℚ)) : Option String × ℚ :=
  if svc.has_index = false ∨ svc.emp_id_map.length = 0 then (none, 0)
  else recognize_from_neighbors svc.emp_id_map search_results
        svc.recognition_threshold

/-! ## Camera frame throttling (CameraService.process_camera) -/

/-- `FRAME_SKIP = 3` (services.py line 1569). -/
def FRAME_SKIP : Nat := 3

/-- A captured frame with counter value `frame_count` is processed iff
the drain condition `frame_count % FRAME_SKIP != 0` (line 1588) is
false.  Both branches increment `frame_count` once per captured frame. -/
def frame_processed (frame_count : Nat) : Bool :=
  frame_count % FRAME_SKIP == 0

/-- Number of processed frames among the next `n` captured frames when
the counter currently holds `fc`, mirroring the steady-state streaming
loop (lines 1582-1600, all reads succeeding). -/
def processed_count : Nat → Nat → Nat
  | _, 0 => 0
  | fc, n + 1 =>
      (if frame_processed fc then 1 else 0) + processed_count (fc + 1) n

/-! ## Broadcast fan-out (WebSocketManager.broadcast) -/

/-- A registered WebSocket connection; `send_fails` says whether
awaiting `send_json` on it raises (client gone, slow close, ...). -/
structure Viewer where
  id : Nat
  send_fails : Bool
deriving Repr, DecidableEq

/-- Embedding of `WebSocketManager.broadcast` (lines 90-117).  In Python,
`connection.send_json(message)` is an async method, so calling it inside
`tasks.append(...)` only creates a coroutine and cannot raise a delivery
error; hence the `except` branch that appends to `disconnected` never
runs for delivery failures, and `disconnected` stays empty.  The sends
are then awaited by `asyncio.gather(*tasks, return_exceptions=True)`,
which attempts every send and captures failures instead of raising.
Finally every member of `disconnected` is removed from
`active_connections`.  Returns the connection list after the call and
one delivery outcome per registered viewer (`true` = delivered). -/
def broadcast (active_connections : List Viewer) : List Viewer × List Bool :=
  if active_connections.isEmpty then (active_connections, [])
  else
    let disconnected : List Viewer := []
    let results := active_connections.map (fun c => !c.send_fails)
    (disconnected.foldl (fun conns ws => conns.erase ws) active_connections,
     results)

/-! ## Theorems: attendance ledger -/

/-- On an existing row, an IN event is a pure no-op returning "skipped". -/
lemma log_in_skips (r : AttendanceRecord) (ev : AttendanceEvent)
    (hev : ev.event_type = "IN") :
    log_attendance_update_only (some r) ev =
      (some r, ⟨true, "IN already logged", some "skipped"⟩) := by
  simp [log_attendance_update_only, hev]

/-- A run of IN events from an existing row leaves it unchanged and
returns "skipped" for every event. -/
lemma runLedger_in_skips (r : AttendanceRecord) :
    ∀ evs : List AttendanceEvent, (∀ x ∈ evs, x.event_type = "IN") →
    runLedger (some r) evs =
      (some r, evs.map fun _ => ⟨true, "IN already logged", some "skipped"⟩) := by
  intro evs
  induction evs with
  | nil => intro _; rfl
  | cons e es ih =>
      intro h
      have he : e.event_type = "IN" := h e (List.mem_cons_self e es)
      have hes : ∀ x ∈ es, x.event_type = "IN" :=
        fun x hx => h x (List.mem_cons_of_mem e hx)
      simp [runLedger, log_in_skips r e he, ih hes]

/-- C2: for a sequence of IN events for one identity on one day, the
first call creates the single record (setting first-IN from that call's
time, camera and confidence) and every subsequent IN call is a no-op
returning action "skipped", leaving the record unchanged. -/
theorem in_recorded_once_per_day (e : AttendanceEvent)
    (evs : List AttendanceEvent) (he : e.event_type = "IN")
    (hevs : ∀ x ∈ evs, x.event_type = "IN") :
    (runLedger none (e :: evs)).1 =
      some ⟨some e.time_only, some e.camera_id, some e.confidence,
            none, none, none⟩ ∧
    (runLedger none (e :: evs)).2 =
      ⟨true, "IN logged", some "inserted"⟩ ::
        evs.map (fun _ => ⟨true, "IN already logged", some "skipped"⟩) := by
  have hfirst : log_attendance_update_only none e =
      (some ⟨some e.time_only, some e.camera_id, some e.confidence,
             none, none, none⟩,
       ⟨true, "IN logged", some "inserted"⟩) := by
    simp [log_attendance_update_only, he]
  constructor
  · simp [runLedger, hfirst,
      runLedger_in_skips ⟨some e.time_only, some e.camera_id,
        some e.confidence, none, none, none⟩ evs hevs]
  · simp [runLedger, hfirst,
      runLedger_in_skips ⟨some e.time_only, some e.camera_id,
        some e.confidence, none, none, none⟩ evs hevs]

/-- Witness for `in_recorded_once_per_day` at a concrete two-event run. -/
theorem in_recorded_once_per_day_witness :
    (runLedger none [⟨"IN", "CAM1", 95/100, 540⟩,
                     ⟨"IN", "CAM2", 9/10, 600⟩]).1 =
      some ⟨some 540, some "CAM1", some (95/100), none, none, none⟩ ∧
    (runLedger none [⟨"IN", "CAM1", 95/100, 540⟩,
                     ⟨"IN", "CAM2", 9/10, 600⟩]).2 =
      [⟨true, "IN logged", some "inserted"⟩,
       ⟨true, "IN already logged", some "skipped"⟩] := by
  have h := in_recorded_once_per_day ⟨"IN", "CAM1", 95/100, 540⟩
    [⟨"IN", "CAM2", 9/10, 600⟩] rfl (by intro x hx; simp at hx; simp [hx])
  simpa using h

/-- C3: an OUT event with no prior record for that (identity, day)
creates a record whose first-IN time, camera and confidence come from
the event, with last-OUT (and its camera/confidence) unset. -/
theorem out_without_record_sets_first_in (ev : AttendanceEvent)
    (hev : ev.event_type = "OUT") :
    log_attendance_update_only none ev =
      (some ⟨some ev.time_only, some ev.camera_id, some ev.confidence,
             none, none, none⟩,
       ⟨true, "IN logged (EXIT camera used)", some "inserted"⟩) := by
  have hne : ev.event_type ≠ "IN" := by simp [hev]
  simp [log_attendance_update_only, hne, hev]

/-- Witness for `out_without_record_sets_first_in` at a concrete event. -/
theorem out_without_record_sets_first_in_witness :
    log_attendance_update_only none ⟨"OUT", "CAM2", 4/5, 700⟩ =
      (some ⟨some 700, some "CAM2", some (4/5), none, none, none⟩,
       ⟨true, "IN logged (EXIT camera used)", some "inserted"⟩) :=
  out_without_record_sets_first_in ⟨"OUT", "CAM2", 4/5, 700⟩ rfl

lemma ledgerInv_weaken (st : Option AttendanceRecord) (e : AttendanceEvent)
    (future : List AttendanceEvent) (hinv : LedgerInv st (e :: future)) :
    LedgerInv st future := by
  intro r hr
  have h0 := hinv r hr
  exact ⟨fun a ha x hx => h0.1 a ha x (List.mem_cons_of_mem e hx),
         fun b hb x hx => h0.2.1 b hb x (List.mem_cons_of_mem e hx),
         h0.2.2.1, h0.2.2.2⟩

lemma ledgerInv_fresh (e : AttendanceEvent) (future : List AttendanceEvent)
    (hord : ∀ x ∈ future, e.time_only ≤ x.time_only) :
    LedgerInv (some ⟨some e.time_only, some e.camera_id, some e.confidence,
                     none, none, none⟩) future := by
  intro r hr
  injection hr with hr
  subst hr
  refine ⟨?_, ?_, ?_, ?_⟩
  · intro a ha x hx
    injection ha with ha
    exact ha ▸ hord x hx
  · intro b hb
    exact Option.noConfusion hb
  · intro h
    exact absurd h (by simp)
  · intro a b _ hb
    exact Option.noConfusion hb

/-- One ledger call preserves `LedgerInv` when the event being processed
is no later than every remaining event. -/
lemma ledgerInv_step (st : Option AttendanceRecord) (e : AttendanceEvent)
    (future : List AttendanceEvent)
    (hord : ∀ x ∈ future, e.time_only ≤ x.time_only)
    (hinv : LedgerInv st (e :: future)) :
    LedgerInv (log_attendance_update_only st e).1 future := by
  by_cases hIN : e.event_type = "IN"
  · cases st with
    | none =>
        have : (log_attendance_update_only none e).1 =
            some ⟨some e.time_only, some e.camera_id, some e.confidence,
                  none, none, none⟩ := by
          simp [log_attendance_update_only, hIN]
        rw [this]
        exact ledgerInv_fresh e future hord
    | some r0 =>
        have : (log_attendance_update_only (some r0) e).1 = some r0 := by
          simp [log_attendance_update_only, hIN]
        rw [this]
        exact ledgerInv_weaken (some r0) e future hinv
  · by_cases hOUT : e.event_type = "OUT"
    · cases st with
      | none =>
          have : (log_attendance_update_only none e).1 =
              some ⟨some e.time_only, some e.camera_id, some e.confidence,
                    none, none, none⟩ := by
            simp [log_attendance_update_only, hIN, hOUT]
          rw [this]
          exact ledgerInv_fresh e future hord
      | some r0 =>
          have h0 := hinv r0 rfl
          by_cases hfi : r0.first_in.isSome
          · have : (log_attendance_update_only (some r0) e).1 =
                some { r0 with last_out := some e.time_only,
                               out_camera_id := some e.camera_id,
                               out_confidence := some e.confidence } := by
              simp [log_attendance_update_only, hIN, hOUT, hfi]
            rw [this]
            intro r hr
            injection hr with hr
            subst hr
            refine ⟨?_, ?_, ?_, ?_⟩
            · intro a ha x hx
              exact h0.1 a ha x (List.mem_cons_of_mem e hx)
            · intro b hb x hx
              injection hb with hb
              exact hb ▸ hord x hx
            · intro _
              simpa using hfi
            · intro a b ha hb
              injection hb with hb
              subst hb
              exact h0.1 a ha e (List.mem_cons_self e future)
          · have hlo : r0.last_out = none := by
              cases hl : r0.last_out with
              | none => rfl
              | some b =>
                  exact absurd (h0.2.2.1 (by simp [hl])) (by simpa using hfi)
            have : (log_attendance_update_only (some r0) e).1 =
                some { r0 with first_in := some e.time_only,
                               in_camera_id := some e.camera_id,
                               in_confidence := some e.confidence } := by
              simp [log_attendance_update_only, hIN, hOUT, hfi]
            rw [this]
            intro r hr
            injection hr with hr
            subst hr
            refine ⟨?_, ?_, ?_, ?_⟩
            · intro a ha x hx
              injection ha with ha
              exact ha ▸ hord x hx
            · intro b hb
              simp [hlo] at hb
            · intro _
              simp
            · intro a b _ hb
              simp [hlo] at hb
    · have : (log_attendance_update_only st e).1 = st := by
        cases st <;> simp [log_attendance_update_only, hIN, hOUT]
      rw [this]
      exact ledgerInv_weaken st e future hinv

/-- Running a time-sorted event list preserves the invariant to the end. -/
lemma ledgerInv_run :
    ∀ (evs : List AttendanceEvent) (st : Option AttendanceRecord),
    evs.Pairwise (fun a b => a.time_only ≤ b.time_only) →
    LedgerInv st evs → LedgerInv (runLedger st evs).1 [] := by
  intro evs
  induction evs with
  | nil => intro st _ h; exact h
  | cons e es ih =>
      intro st hp hinv
      rw [List.pairwise_cons] at hp
      have hstep := ledgerInv_step st e es hp.1 hinv
      have : (runLedger st (e :: es)).1 =
          (runLedger (log_attendance_update_only st e).1 es).1 := rfl
      rw [this]
      exact ih _ hp.2 hstep

/-- C4 (amended): for events of one identity within one day, processed
in nondecreasing time order, the final record satisfies
first-IN ≤ last-OUT whenever both are set. -/
theorem first_in_le_last_out (evs : List AttendanceEvent)
    (hkinds : ∀ e ∈ evs, e.event_type = "IN" ∨ e.event_type = "OUT")
    (hsorted : evs.Pairwise (fun a b => a.time_only ≤ b.time_only))
    (r : AttendanceRecord) (hr : (runLedger none evs).1 = some r)
    (a b : Nat) (ha : r.first_in = some a) (hb : r.last_out = some b) :
    a ≤ b := by
  have h0 : LedgerInv (none : Option AttendanceRecord) evs := by
    intro r hr; exact Option.noConfusion hr
  have h := ledgerInv_run evs none hsorted h0
  exact (h r hr).2.2.2 a b ha hb

/-- Witness for `first_in_le_last_out` at a concrete IN-then-OUT run. -/
theorem first_in_le_last_out_witness :
    ((runLedger none [⟨"IN", "CAM1", 1, 100⟩,
                      ⟨"OUT", "CAM2", 1, 200⟩]).1 =
      some ⟨some 100, some "CAM1", some 1,
            some 200, some "CAM2", some 1⟩) ∧
    (100 : Nat) ≤ 200 :=
  ⟨by decide,
   first_in_le_last_out
     [⟨"IN", "CAM1", 1, 100⟩, ⟨"OUT", "CAM2", 1, 200⟩]
     (by intro e he; simp at he; rcases he with h | h <;> simp [h])
     (by simp)
     ⟨some 100, some "CAM1", some 1, some 200, some "CAM2", some 1⟩
     (by decide) 100 200 rfl rfl⟩

/-- C4 counterexample: in an arbitrary interleaving order — here an IN
at time 100 processed before an OUT carrying the earlier time 50 — the
final record has first-IN = 100 > last-OUT = 50, refuting the claim as
stated for arbitrary orderings. -/
theorem first_in_le_last_out_counterexample :
    (runLedger none [⟨"IN", "ENTRY", 1, 100⟩,
                     ⟨"OUT", "EXIT", 1, 50⟩]).1 =
      some ⟨some 100, some "ENTRY", some 1,
            some 50, some "EXIT", some 1⟩ ∧
    ¬ (100 : Nat) ≤ 50 := by decide

/-- C5 (amended): every ledger call with event kind IN or OUT succeeds
and returns an action among "inserted", "updated", "skipped". -/
theorem ledger_actions (st : Option AttendanceRecord) (ev : AttendanceEvent)
    (hk : ev.event_type = "IN" ∨ ev.event_type = "OUT") :
    (log_attendance_update_only st ev).2.success = true ∧
    ((log_attendance_update_only st ev).2.action = some "inserted" ∨
     (log_attendance_update_only st ev).2.action = some "updated" ∨
     (log_attendance_update_only st ev).2.action = some "skipped") := by
  rcases hk with h | h
  · cases st <;> simp [log_attendance_update_only, h]
  · cases st with
    | none => simp [log_attendance_update_only, h]
    | some r =>
        by_cases hfi : r.first_in.isSome <;>
          simp [log_attendance_update_only, h, hfi]

/-- Witness for `ledger_actions` at a concrete first-IN call. -/
theorem ledger_actions_witness :
    (log_attendance_update_only none ⟨"IN", "CAM1", 1, 540⟩).2.success = true ∧
    ((log_attendance_update_only none ⟨"IN", "CAM1", 1, 540⟩).2.action
        = some "inserted" ∨
     (log_attendance_update_only none ⟨"IN", "CAM1", 1, 540⟩).2.action
        = some "updated" ∨
     (log_attendance_update_only none ⟨"IN", "CAM1", 1, 540⟩).2.action
        = some "skipped") :=
  ledger_actions none ⟨"IN", "CAM1", 1, 540⟩ (Or.inl rfl)

/-- C5 counterexample: a successful first-IN call returns the action
"inserted", which is none of the claimed set of actions — in
particular it is not "created". -/
theorem ledger_action_not_created :
    (log_attendance_update_only none ⟨"IN", "CAM1", 1, 540⟩).2.success = true ∧
    (log_attendance_update_only none ⟨"IN", "CAM1", 1, 540⟩).2.action
      ≠ some "created" ∧
    (log_attendance_update_only none ⟨"IN", "CAM1", 1, 540⟩).2.action
      ≠ some "updated" ∧
    (log_attendance_update_only none ⟨"IN", "CAM1", 1, 540⟩).2.action
      ≠ some "skipped" := by decide

/-! ## Theorems: multi-angle matcher -/

/-- The descending sort is a permutation of its input. -/
lemma sortDesc_perm (l : List ℚ) : (sortDesc l).Perm l :=
  List.perm_insertionSort _ l

/-- The descending sort is sorted: earlier entries dominate later ones. -/
lemma sortDesc_sorted (l : List ℚ) :
    (sortDesc l).Pairwise (fun a b => b ≤ a) := by
  haveI : IsTotal ℚ (fun a b : ℚ => b ≤ a) := ⟨fun a b => le_total b a⟩
  haveI : IsTrans ℚ (fun a b : ℚ => b ≤ a) :=
    ⟨fun _ _ _ hab hbc => le_trans hbc hab⟩
  exact List.sorted_insertionSort _ l

lemma mem_sortDesc {q : ℚ} {l : List ℚ} (hq : q ∈ sortDesc l) : q ∈ l :=
  (sortDesc_perm l).subset hq

/-- The best-match fold dominates every group's confidence and its own
seed, and either returns the seed or some group's identity/confidence. -/
lemma pickBest_foldl :
    ∀ (groups : List (String × List ℚ)) (b : Option String × ℚ),
    (∀ g ∈ groups, confidence_of g.2 ≤ (groups.foldl pickStep b).2) ∧
    b.2 ≤ (groups.foldl pickStep b).2 ∧
    (groups.foldl pickStep b = b ∨
      ∃ g ∈ groups, (groups.foldl pickStep b).1 = some g.1 ∧
        (groups.foldl pickStep b).2 = confidence_of g.2) := by
  intro groups
  induction groups with
  | nil =>
      intro b
      exact ⟨by simp, le_refl _, Or.inl rfl⟩
  | cons g gs ih =>
      intro b
      have hfold : (g :: gs).foldl pickStep b =
          gs.foldl pickStep (pickStep b g) := rfl
      have ihb := ih (pickStep b g)
      have hb2 : b.2 ≤ (pickStep b g).2 := by
        unfold pickStep
        split
        · next hgt => exact le_of_lt hgt
        · exact le_refl _
      have hg2 : confidence_of g.2 ≤ (pickStep b g).2 := by
        unfold pickStep
        split
        · exact le_refl _
        · next hng => exact le_of_not_lt hng
      refine ⟨?_, ?_, ?_⟩
      · intro g2 hm
        rw [hfold]
        rcases List.mem_cons.mp hm with h | h
        · rw [h]
          exact le_trans hg2 ihb.2.1
        · exact ihb.1 g2 h
      · rw [hfold]
        exact le_trans hb2 ihb.2.1
      · rw [hfold]
        rcases ihb.2.2 with heq | ⟨g2, hm, h1, h2⟩
        · rw [heq]
          unfold pickStep
          split
          · exact Or.inr ⟨g, List.mem_cons_self g gs, rfl, rfl⟩
          · exact Or.inl rfl
        · exact Or.inr ⟨g2, List.mem_cons_of_mem g hm, h1, h2⟩

/-- C1: per-identity confidence follows the two-best-angle rule — with
at least two matched poses and gap ≤ 0.08 it is the average of the best
two, with a larger gap it is top × 0.6, with exactly one matched pose it
is that similarity — and a returned identity is one achieving the
highest per-identity confidence. -/
theorem multi_angle_matcher_rule :
    (∀ sims top second rest, sortDesc sims = top :: second :: rest →
        ((top - second ≤ 8/100 → confidence_of sims = (top + second) / 2) ∧
         (8/100 < top - second → confidence_of sims = top * (6/10)))) ∧
    (∀ sims top, sortDesc sims = [top] → confidence_of sims = top) ∧
    (∀ (m : List String) (res : List (Nat × ℚ)) (θ : ℚ) (e : String),
        (recognize_from_neighbors m res θ).1 = some e →
        (∀ g ∈ group_by_employee m res,
            confidence_of g.2 ≤ (recognize_from_neighbors m res θ).2) ∧
        ∃ g ∈ group_by_employee m res, g.1 = e ∧
            confidence_of g.2 = (recognize_from_neighbors m res θ).2) := by
  refine ⟨?_, ?_, ?_⟩
  · intro sims top second rest h
    constructor
    · intro hle
      unfold confidence_of
      rw [h]
      simp only [confFromSorted]
      rw [if_pos hle]
    · intro hgt
      unfold confidence_of
      rw [h]
      simp only [confFromSorted]
      rw [if_neg (not_le.mpr hgt)]
  · intro sims top h
    unfold confidence_of
    rw [h]
    rfl
  · intro m res θ e he
    have haux := pickBest_foldl (group_by_employee m res) (none, 0)
    have hsplit : (recognize_from_neighbors m res θ).1 = some e →
        (recognize_from_neighbors m res θ) =
          (pickBest (group_by_employee m res)) := by
      simp only [recognize_from_neighbors]
      split
      · intro _; rfl
      · intro hc; exact absurd hc (by simp)
    have hre := hsplit he
    rw [hre] at he ⊢
    refine ⟨fun g hg => haux.1 g hg, ?_⟩
    rcases haux.2.2 with heq | ⟨g, hm, h1, h2⟩
    · rw [show pickBest (group_by_employee m res) =
          ((none : Option String), (0 : ℚ)) from heq] at he
      exact absurd he (by simp)
    · have hge : g.1 = e := by
        have hpe : (pickBest (group_by_employee m res)).1 = some g.1 := h1
        rw [he] at hpe
        exact (Option.some.inj hpe).symm
      exact ⟨g, hm, hge, h2.symm⟩

/-- Witness for `multi_angle_matcher_rule`: the spec's own example —
poses at similarity 0.82 and 0.77 (gap 0.05 ≤ 0.08) average to 0.795 —
and a one-neighbor query returning that identity at its confidence. -/
theorem multi_angle_matcher_rule_witness :
    confidence_of [77/100, 82/100] = (82/100 + 77/100) / 2 ∧
    ∃ g ∈ group_by_employee ["E1"] [(0, 1)], g.1 = "E1" ∧
      confidence_of g.2 = (recognize_from_neighbors ["E1"] [(0, 1)] (40/100)).2 :=
  ⟨(multi_angle_matcher_rule.1 [77/100, 82/100] (82/100) (77/100) []
      (by norm_num [sortDesc, List.insertionSort, List.orderedInsert])).1
      (by norm_num),
   (multi_angle_matcher_rule.2.2 ["E1"] [(0, 1)] (40/100) "E1"
      (by norm_num [recognize_from_neighbors, group_by_employee, addSim,
        pickBest, pickStep, confidence_of, confFromSorted, sortDesc,
        List.insertionSort, List.orderedInsert])).2⟩

/-- C6 (amended): when every per-identity confidence is below the
threshold the matcher returns no identity; the confidence it reports is
the best-confidence accumulator — 0 when no per-identity confidence
exceeds 0 (so a negative best observed confidence is reported as 0.0,
not as itself), otherwise the highest per-identity confidence; and a
returned identity always carries confidence ≥ the threshold
(0.40 by default). -/
theorem threshold_gating (m : List String) (res : List (Nat × ℚ)) :
    recognition_threshold = 40/100 ∧
    ((∀ g ∈ group_by_employee m res,
        confidence_of g.2 < recognition_threshold) →
      (recognize_from_neighbors m res recognition_threshold).1 = none) ∧
    ((recognize_from_neighbors m res recognition_threshold).2 =
      (pickBest (group_by_employee m res)).2) ∧
    ((pickBest (group_by_employee m res)).2 = 0 ∨
      ∃ g ∈ group_by_employee m res,
        (pickBest (group_by_employee m res)).2 = confidence_of g.2) ∧
    (∀ g ∈ group_by_employee m res,
        confidence_of g.2 ≤ (pickBest (group_by_employee m res)).2) ∧
    (∀ e, (recognize_from_neighbors m res recognition_threshold).1 = some e →
        recognition_threshold ≤
          (recognize_from_neighbors m res recognition_threshold).2) := by
  have haux := pickBest_foldl (group_by_employee m res) (none, 0)
  refine ⟨rfl, ?_, ?_, ?_, fun g hg => haux.1 g hg, ?_⟩
  · intro hall
    have hlt : (pickBest (group_by_employee m res)).2 <
        recognition_threshold := by
      rcases haux.2.2 with heq | ⟨g, hm, _, h2⟩
      · rw [show pickBest (group_by_employee m res) =
            ((none : Option String), (0 : ℚ)) from heq]
        norm_num [recognition_threshold]
      · rw [show (pickBest (group_by_employee m res)).2 =
            confidence_of g.2 from h2]
        exact hall g hm
    simp only [recognize_from_neighbors]
    rw [if_neg (not_le.mpr hlt)]
  · simp only [recognize_from_neighbors]
    split <;> rfl
  · rcases haux.2.2 with heq | ⟨g, hm, _, h2⟩
    · exact Or.inl (by rw [show pickBest (group_by_employee m res) =
        ((none : Option String), (0 : ℚ)) from heq])
    · exact Or.inr ⟨g, hm, h2⟩
  · intro e he
    simp only [recognize_from_neighbors] at he ⊢
    by_cases hth : (pickBest (group_by_employee m res)).2 ≥
        recognition_threshold
    · rw [if_pos hth]
      exact hth
    · rw [if_neg hth] at he
      exact absurd he (by simp)

/-- Witness for `threshold_gating`: a single neighbor at similarity
0.10 scores below the 0.40 threshold, so no identity is returned. -/
theorem threshold_gating_witness :
    (recognize_from_neighbors ["E1"] [(0, 1/10)] recognition_threshold).1 =
      none :=
  (threshold_gating ["E1"] [(0, 1/10)]).2.1 (by
    intro g hg
    rw [show group_by_employee ["E1"] [(0, 1/10)] = [("E1", [1/10])] from rfl]
      at hg
    simp only [List.mem_singleton] at hg
    rw [hg]
    norm_num [confidence_of, confFromSorted, sortDesc, List.insertionSort,
      List.orderedInsert, recognition_threshold])

/-- C6 counterexample: with one enrolled identity and a single neighbor
at similarity −1, the highest per-identity confidence is −1 < 0.40, and
the matcher returns (none, 0.0): the reported confidence is 0, not the
best confidence observed (−1) — the accumulator starts at 0.0 and only
strictly positive confidences replace it. -/
theorem threshold_gating_counterexample :
    recognize_face (load_face_map [("E1", [[1]])]) [(0, -1)] = (none, 0) ∧
    group_by_employee (load_face_map [("E1", [[1]])]).emp_id_map [(0, -1)] =
      [("E1", [-1])] ∧
    confidence_of [-1] = -1 ∧
    (-1 : ℚ) < recognition_threshold ∧
    (0 : ℚ) ≠ -1 := by
  have hpick : pickBest [("E1", [-1])] = (none, 0) := by
    norm_num [pickBest, pickStep, confidence_of, confFromSorted, sortDesc,
      List.insertionSort, List.orderedInsert]
  refine ⟨?_, rfl, rfl, by norm_num [recognition_threshold], by norm_num⟩
  show recognize_from_neighbors ["E1"] [(0, -1)] (40/100) = (none, 0)
  simp only [recognize_from_neighbors]
  rw [show group_by_employee ["E1"] [(0, -1)] = [("E1", [-1])] from rfl,
    hpick]
  norm_num

/-- C7: an empty enrollment set (zero embeddings in total) yields the
explicit empty index state (`faiss_index = None`), and every query
against it returns no candidates, `(none, 0.0)`. -/
theorem empty_index_no_candidates (fm : List (String × List (List ℚ)))
    (hempty : fm.flatMap (fun p => p.2) = []) (results : List (Nat × ℚ)) :
    (load_face_map fm).has_index = false ∧
    recognize_face (load_face_map fm) results = (none, 0) := by
  have h1 : (load_face_map fm).has_index = false := by
    simp [load_face_map, hempty]
  exact ⟨h1, by simp [recognize_face, h1]⟩

/-- Witness for `empty_index_no_candidates` at the empty face map. -/
theorem empty_index_no_candidates_witness :
    (load_face_map []).has_index = false ∧
    recognize_face (load_face_map []) [(0, 1)] = (none, 0) :=
  empty_index_no_candidates [] rfl [(0, 1)]

/-- Any similarity appearing in a group created by `addSim` was in the
initial groups or is the appended similarity. -/
lemma mem_addSim_val (eid : String) (s q : ℚ) :
    ∀ (gs : List (String × List ℚ)) (g : String × List ℚ),
    g ∈ addSim eid s gs → q ∈ g.2 →
    (∃ g0 ∈ gs, q ∈ g0.2) ∨ q = s := by
  intro gs
  induction gs with
  | nil =>
      intro g hg hq
      simp only [addSim, List.mem_singleton] at hg
      rw [hg] at hq
      simp only [List.mem_singleton] at hq
      exact Or.inr hq
  | cons g0 rest ih =>
      intro g hg hq
      by_cases h : g0.1 = eid
      · rw [show addSim eid s (g0 :: rest) = (g0.1, g0.2 ++ [s]) :: rest
            from by simp [addSim, h]] at hg
        rcases List.mem_cons.mp hg with h1 | h1
        · rw [h1] at hq
          simp only [List.mem_append, List.mem_singleton] at hq
          rcases hq with hq | hq
          · exact Or.inl ⟨g0, List.mem_cons_self _ _, hq⟩
          · exact Or.inr hq
        · exact Or.inl ⟨g, List.mem_cons_of_mem g0 h1, hq⟩
      · rw [show addSim eid s (g0 :: rest) = g0 :: addSim eid s rest
            from by simp [addSim, h]] at hg
        rcases List.mem_cons.mp hg with h1 | h1
        · exact Or.inl ⟨g0, List.mem_cons_self _ _, h1 ▸ hq⟩
        · rcases ih g h1 hq with ⟨g1, hm, hv⟩ | hr
          · exact Or.inl ⟨g1, List.mem_cons_of_mem g0 hm, hv⟩
          · exact Or.inr hr

/-- Any similarity in the grouped structure comes from the seed groups
or from one of the search results. -/
lemma mem_group_val (m : List String) :
    ∀ (res : List (Nat × ℚ)) (gs0 : List (String × List ℚ))
      (g : String × List ℚ) (q : ℚ),
    g ∈ res.foldl (fun gs p => addSim (m.getD p.1 "") p.2 gs) gs0 →
    q ∈ g.2 →
    (∃ g0 ∈ gs0, q ∈ g0.2) ∨ ∃ p ∈ res, p.2 = q := by
  intro res
  induction res with
  | nil =>
      intro gs0 g q hg hq
      exact Or.inl ⟨g, hg, hq⟩
  | cons p ps ih =>
      intro gs0 g q hg hq
      have hg2 : g ∈ ps.foldl (fun gs p2 => addSim (m.getD p2.1 "") p2.2 gs)
          (addSim (m.getD p.1 "") p.2 gs0) := hg
      rcases ih (addSim (m.getD p.1 "") p.2 gs0) g q hg2 hq with
        ⟨g0, hm, hv⟩ | ⟨p2, hm, he⟩
      · rcases mem_addSim_val (m.getD p.1 "") p.2 q gs0 g0 hm hv with hL | hR
        · rcases hL with ⟨g1, hg1, hq1⟩
          exact Or.inl ⟨g1, hg1, hq1⟩
        · exact Or.inr ⟨p, List.mem_cons_self p ps, hR.symm⟩
      · exact Or.inr ⟨p2, List.mem_cons_of_mem p hm, he⟩

/-- Every similarity in a group of `group_by_employee` is one of the
search-result similarities. -/
lemma mem_group_by_employee (m : List String) (res : List (Nat × ℚ))
    (g : String × List ℚ) (q : ℚ) (hg : g ∈ group_by_employee m res)
    (hq : q ∈ g.2) : ∃ p ∈ res, p.2 = q := by
  rcases mem_group_val m res [] g q hg hq with ⟨g0, hm, _⟩ | h
  · exact absurd hm (List.not_mem_nil g0)
  · exact h

/-- If every similarity of an identity is ≤ 1, so is its confidence. -/
lemma confidence_of_le_one (sims : List ℚ) (h : ∀ q ∈ sims, q ≤ 1) :
    confidence_of sims ≤ 1 := by
  have hmem : ∀ q ∈ sortDesc sims, q ≤ 1 := fun q hq => h q (mem_sortDesc hq)
  unfold confidence_of
  cases hs : sortDesc sims with
  | nil => norm_num [confFromSorted]
  | cons t rest =>
      cases rest with
      | nil =>
          have ht : t ≤ 1 := hmem t (by rw [hs]; exact List.mem_cons_self _ _)
          simpa [confFromSorted] using ht
      | cons s rest2 =>
          have ht : t ≤ 1 := hmem t (by rw [hs]; exact List.mem_cons_self _ _)
          have hsnd : s ≤ 1 := hmem s (by rw [hs]; simp)
          simp only [confFromSorted]
          split
          · linarith
          · linarith

/-- C8: with L2-normalized embeddings every neighbor similarity lies in
[−1, 1], and then the confidence returned by `recognize_face` lies in
[0, 1]: the accumulator starts at 0.0 and every candidate confidence is
at most 1. -/
theorem confidence_in_unit_interval (svc : FaissService)
    (results : List (Nat × ℚ))
    (hsim : ∀ p ∈ results, -1 ≤ p.2 ∧ p.2 ≤ 1) :
    0 ≤ (recognize_face svc results).2 ∧
    (recognize_face svc results).2 ≤ 1 := by
  unfold recognize_face
  split
  · constructor <;> norm_num
  · have haux := pickBest_foldl
      (group_by_employee svc.emp_id_map results) (none, 0)
    have heq2 : (recognize_from_neighbors svc.emp_id_map results
        svc.recognition_threshold).2 =
        (pickBest (group_by_employee svc.emp_id_map results)).2 := by
      simp only [recognize_from_neighbors]
      split <;> rfl
    rw [heq2]
    constructor
    · exact haux.2.1
    · rcases haux.2.2 with heq | ⟨g, hm, _, h2⟩
      · rw [show pickBest (group_by_employee svc.emp_id_map results) =
            ((none : Option String), (0 : ℚ)) from heq]
        norm_num
      · rw [show (pickBest (group_by_employee svc.emp_id_map results)).2 =
            confidence_of g.2 from h2]
        apply confidence_of_le_one
        intro q hq
        obtain ⟨p, hp, hpq⟩ :=
          mem_group_by_employee svc.emp_id_map results g q hm hq
        exact hpq ▸ (hsim p hp).2

/-- Witness for `confidence_in_unit_interval` at a concrete two-pose
perfect match. -/
theorem confidence_in_unit_interval_witness :
    0 ≤ (recognize_face (load_face_map [("E1", [[1], [1]])])
          [(0, 1), (1, 1)]).2 ∧
    (recognize_face (load_face_map [("E1", [[1], [1]])])
          [(0, 1), (1, 1)]).2 ≤ 1 :=
  confidence_in_unit_interval (load_face_map [("E1", [[1], [1]])])
    [(0, 1), (1, 1)]
    (by intro p hp
        simp at hp
        rcases hp with h | h <;> rw [h] <;> norm_num)

/-! ## Theorems: camera frame throttling -/

/-- Starting from a counter that is a multiple of three, each block of
three captured frames contributes exactly one processed frame. -/
lemma processed_count_block (n : Nat) :
    ∀ fc, fc % 3 = 0 → processed_count fc (3 * n) = n := by
  induction n with
  | zero => intro fc _; rfl
  | succ n ih =>
      intro fc h
      have h1 : (fc + 1) % 3 ≠ 0 := by omega
      have h2 : (fc + 2) % 3 ≠ 0 := by omega
      have h3 : (fc + 3) % 3 = 0 := by omega
      have e : 3 * (n + 1) = 3 * n + 2 + 1 := by ring
      rw [e]
      have expand : processed_count fc (3 * n + 2 + 1) =
          (if frame_processed fc then 1 else 0) +
          ((if frame_processed (fc + 1) then 1 else 0) +
           ((if frame_processed (fc + 2) then 1 else 0) +
            processed_count (fc + 3) (3 * n))) := rfl
      rw [expand, ih (fc + 3) h3]
      simp [frame_processed, FRAME_SKIP, h, h1, h2]
      omega

/-- C9 (amended): with the default frame-skip factor `FRAME_SKIP = 3`,
exactly every 3rd captured frame is processed — a frame is processed iff
its counter value is a multiple of 3, and any run of 3·n captured frames
starting at the initial counter contains exactly n processed frames. -/
theorem every_third_frame_processed :
    (∀ k, frame_processed k = true ↔ k % 3 = 0) ∧
    (∀ n, processed_count 0 (3 * n) = n) := by
  constructor
  · intro k
    simp [frame_processed, FRAME_SKIP]
  · intro n
    exact processed_count_block n 0 rfl

/-- C9 counterexample: among the first 12 captured frames the code
processes 4 of them (counter values 0, 3, 6, 9), not the 3 that
"exactly every 4th frame" would give. -/
theorem every_fourth_frame_counterexample :
    processed_count 0 12 = 4 ∧ processed_count 0 12 ≠ 3 ∧
    frame_processed 3 = true := by decide

/-! ## Theorems: broadcast fan-out -/

/-- C10 (code evaluated at the failing input): broadcasting to a
registry whose first viewer's send fails completes the whole fan-out —
one outcome per viewer, the healthy viewer's delivery succeeding — but
leaves the failing viewer registered: the `except` that fills
`disconnected` guards only coroutine creation, which cannot raise, and
`gather(..., return_exceptions=True)` swallows the failure, so the
removal loop runs over an empty list. -/
theorem broadcast_keeps_failing_viewer :
    broadcast [⟨0, true⟩, ⟨1, false⟩] =
      ([⟨0, true⟩, ⟨1, false⟩], [false, true]) := by decide

end AttendanceSystem
